import Mathlib

/-!
Verification of the dango OAuth credential subsystem
(`src/dango/oauth/storage.py`, `src/dango/oauth/providers.py`,
`src/dango/oauth/router.py`) against its natural-language specification.

The Python code is shallowly embedded:

* `PyVal` models the dynamic values that flow through the storage layer
  (TOML-representable scalars, Python `None`, `datetime` objects, and
  string-keyed dicts, which are modelled as ordered association lists
  exactly like Python's insertion-ordered dicts).
* Serialisation to disk goes through the `toml` 0.10.x package.  That
  package has no encoder for `None`: it falls back to the string encoder,
  so a `None` value is written as the quoted string `"None"` and reads
  back as that string.  `rtVal` models one dump/load round trip of a value
  through the secrets file.
* `datetime.isoformat` / `datetime.fromisoformat` are external standard
  library collaborators; they are modelled by a `DtCodec` (an injective
  text encoding of timestamps whose parser inverts the encoder and
  rejects the literal text "None", as ISO-8601 parsing does).
* The `SecureTokenStorage` encryption collaborator is out of scope per the
  spec and is modelled by an abstract `EncCollab` (encrypt to an opaque
  blob / decrypt back).
* Python functions that raise are embedded with `Except PyErr` (an
  `Except.error` result models an exception propagating to the caller);
  callers with `try/except` blocks map exceptional results to their
  fallback values, as the source does.
-/

namespace Dango

/-! ### Dynamic values -/

/-- Dynamic (Python/TOML) values stored in the secrets document. -/
inductive PyVal where
  | str (s : String)
  | bool (b : Bool)
  | int (n : Int)
  | none
  | dt (n : Nat)
  | table (kvs : List (String × PyVal))
deriving Repr

mutual
/-- Structural equality test for dynamic values. -/
def PyVal.beq : PyVal → PyVal → Bool
  | .str a, .str b => a == b
  | .bool a, .bool b => a == b
  | .int a, .int b => a == b
  | .none, .none => true
  | .dt a, .dt b => a == b
  | .table a, .table b => beqTable a b
  | _, _ => false
/-- Structural equality test for tables (association lists). -/
def beqTable : List (String × PyVal) → List (String × PyVal) → Bool
  | [], [] => true
  | (k1, v1) :: r1, (k2, v2) :: r2 => k1 == k2 && PyVal.beq v1 v2 && beqTable r1 r2
  | _, _ => false
end

mutual
theorem PyVal.beq_iff : ∀ (a b : PyVal), PyVal.beq a b = true ↔ a = b
  | .str a, .str b => by simp [PyVal.beq]
  | .bool a, .bool b => by simp [PyVal.beq]
  | .int a, .int b => by simp [PyVal.beq]
  | .none, .none => by simp [PyVal.beq]
  | .dt a, .dt b => by simp [PyVal.beq]
  | .table a, .table b => by simp [PyVal.beq, beqTable_iff a b]
  | .str _, .bool _ => by simp [PyVal.beq]
  | .str _, .int _ => by simp [PyVal.beq]
  | .str _, .none => by simp [PyVal.beq]
  | .str _, .dt _ => by simp [PyVal.beq]
  | .str _, .table _ => by simp [PyVal.beq]
  | .bool _, .str _ => by simp [PyVal.beq]
  | .bool _, .int _ => by simp [PyVal.beq]
  | .bool _, .none => by simp [PyVal.beq]
  | .bool _, .dt _ => by simp [PyVal.beq]
  | .bool _, .table _ => by simp [PyVal.beq]
  | .int _, .str _ => by simp [PyVal.beq]
  | .int _, .bool _ => by simp [PyVal.beq]
  | .int _, .none => by simp [PyVal.beq]
  | .int _, .dt _ => by simp [PyVal.beq]
  | .int _, .table _ => by simp [PyVal.beq]
  | .none, .str _ => by simp [PyVal.beq]
  | .none, .bool _ => by simp [PyVal.beq]
  | .none, .int _ => by simp [PyVal.beq]
  | .none, .dt _ => by simp [PyVal.beq]
  | .none, .table _ => by simp [PyVal.beq]
  | .dt _, .str _ => by simp [PyVal.beq]
  | .dt _, .bool _ => by simp [PyVal.beq]
  | .dt _, .int _ => by simp [PyVal.beq]
  | .dt _, .none => by simp [PyVal.beq]
  | .dt _, .table _ => by simp [PyVal.beq]
  | .table _, .str _ => by simp [PyVal.beq]
  | .table _, .bool _ => by simp [PyVal.beq]
  | .table _, .int _ => by simp [PyVal.beq]
  | .table _, .none => by simp [PyVal.beq]
  | .table _, .dt _ => by simp [PyVal.beq]
theorem beqTable_iff : ∀ (a b : List (String × PyVal)), beqTable a b = true ↔ a = b
  | [], [] => by simp [beqTable]
  | [], _ :: _ => by simp [beqTable]
  | _ :: _, [] => by simp [beqTable]
  | (k1, v1) :: r1, (k2, v2) :: r2 => by
    simp [beqTable, PyVal.beq_iff v1 v2, beqTable_iff r1 r2, and_assoc]
end

instance : DecidableEq PyVal := fun a b => decidable_of_iff _ (PyVal.beq_iff a b)

/-- A TOML document (the parsed secrets file): an insertion-ordered dict. -/
abbrev Doc := List (String × PyVal)

/-- Dict read: Python `d.get(k)` / `d[k]`. -/
def lookupV : Doc → String → Option PyVal
  | [], _ => Option.none
  | (k', v) :: rest, k => if k' = k then some v else lookupV rest k

/-- Dict write: Python `d[k] = v` (replaces in place, else appends,
matching insertion-ordered dict semantics). -/
def setKey : Doc → String → PyVal → Doc
  | [], k, v => [(k, v)]
  | (k', v') :: rest, k, v =>
    if k' = k then (k, v) :: rest else (k', v') :: setKey rest k v

/-- Dict delete: Python `del d[k]`. -/
def delKey : Doc → String → Doc
  | [], _ => []
  | (k', v') :: rest, k => if k' = k then rest else (k', v') :: delKey rest k

/-- Dict membership: Python `k in d`. -/
def hasKey (d : Doc) (k : String) : Bool :=
  match d with
  | [] => false
  | (k', _) :: rest => k' = k || hasKey rest k

/-- Python truthiness of an optional dynamic value
(used for `cred_data['credentials'].get('_encrypted')` checks). -/
def truthy : Option PyVal → Bool
  | Option.none => false
  | some (.str s) => !(s = "")
  | some (.bool b) => b
  | some (.int n) => !(n = 0)
  | some .none => false
  | some (.dt _) => true
  | some (.table kvs) => !(kvs = [])

/-! ### TOML dump/load round trip

The secrets file is written with `toml.dump` and read with `toml.load`
(toml package 0.10.x).  For the values produced by this subsystem the
round trip is the identity except for Python `None`: the encoder has no
`None` handler and falls back to its string encoder, so `None` is written
as the quoted string `"None"` (and reads back as that string).  `rtVal`
is one dump-then-load round trip of a stored value. -/

mutual
def rtVal : PyVal → PyVal
  | .str s => .str s
  | .bool b => .bool b
  | .int n => .int n
  | .none => .str "None"
  | .dt n => .dt n
  | .table kvs => .table (rtTable kvs)
def rtTable : Doc → Doc
  | [] => []
  | (k, v) :: rest => (k, rtVal v) :: rtTable rest
end

mutual
theorem rtVal_idem : ∀ (v : PyVal), rtVal (rtVal v) = rtVal v
  | .str _ => rfl
  | .bool _ => rfl
  | .int _ => rfl
  | .none => rfl
  | .dt _ => rfl
  | .table kvs => by simp [rtVal, rtTable_idem kvs]
theorem rtTable_idem : ∀ (l : Doc), rtTable (rtTable l) = rtTable l
  | [] => rfl
  | (k, v) :: rest => by simp [rtTable, rtVal_idem v, rtTable_idem rest]
end

theorem lookupV_rtTable (d : Doc) (k : String) :
    lookupV (rtTable d) k = (lookupV d k).map rtVal := by
  induction d with
  | nil => rfl
  | cons p rest ih =>
    obtain ⟨k', v⟩ := p
    by_cases h : k' = k
    · simp [rtTable, lookupV, h]
    · simp [rtTable, lookupV, h, ih]

/-! ### Timestamp text codec

`datetime.isoformat` / `datetime.fromisoformat` are external standard
library collaborators (timestamps are modelled as seconds).  A `DtCodec`
is any unambiguous text encoding of timestamps: the parser inverts the
encoder, and rejects the literal text "None" (no ISO-8601 timestamp reads
"None"; `datetime.fromisoformat("None")` raises `ValueError`). -/

structure DtCodec where
  enc : Nat → String
  dec : String → Option Nat
  dec_enc : ∀ n, dec (enc n) = some n
  dec_none : dec "None" = Option.none

/-- A concrete codec instance (unary encoding) used to evaluate theorems
on closed inputs. -/
def unaryCodec : DtCodec where
  enc n := String.mk (List.replicate n 'd')
  dec s := if s.data.all (· = 'd') then some s.data.length else Option.none
  dec_enc n := by simp [List.all_eq_true, List.eq_of_mem_replicate]
  dec_none := by decide

/-! ### Credential entity (`OAuthCredential`, storage.py 21-93)

Field types follow the dataclass declaration.  `credentials` is the
secret payload dict; `metadata` is kept as a raw dynamic value because
neither `to_dict` nor `from_dict` converts it (Python passes it through
untouched, including the `None` case). -/

structure OAuthCredential where
  name : String
  provider : String
  identifier : String
  account_info : String
  credentials : Doc
  created_at : Nat
  expires_at : Option Nat
  last_used : Option Nat
  last_refreshed : Option Nat
  metadata : PyVal
deriving DecidableEq, Repr

/-- Python `timedelta.days`: the whole-day component of a normalised
timedelta, i.e. floor division of the total seconds by 86400. -/
def timedeltaDays (totalSeconds : Int) : Int :=
  Int.fdiv totalSeconds 86400

/-- storage.py 55-60: `days_until_expiry`.  `now` is the current time in
seconds. -/
def OAuthCredential.days_until_expiry (c : OAuthCredential) (now : Nat) : Option Int :=
  match c.expires_at with
  | Option.none => Option.none
  | some e => some (max 0 (timedeltaDays ((e : Int) - (now : Int))))

/-- Encoding of an optional datetime field by `to_dict`: `None` stays
`None`, a datetime becomes its text form. -/
def optDtVal (codec : DtCodec) : Option Nat → PyVal
  | Option.none => .none
  | some n => .str (codec.enc n)

/-- storage.py 67-79: `to_dict` (dataclass `asdict` in field order, then
datetime fields converted to text). -/
def OAuthCredential.to_dict (codec : DtCodec) (c : OAuthCredential) : Doc :=
  [("name", .str c.name),
   ("provider", .str c.provider),
   ("identifier", .str c.identifier),
   ("account_info", .str c.account_info),
   ("credentials", .table c.credentials),
   ("created_at", .str (codec.enc c.created_at)),
   ("expires_at", optDtVal codec c.expires_at),
   ("last_used", optDtVal codec c.last_used),
   ("last_refreshed", optDtVal codec c.last_refreshed),
   ("metadata", c.metadata)]

/-- Python exceptions that `from_dict` can raise. -/
inductive PyErr where
  | typeError
  | valueError
deriving DecidableEq, Repr

/-- storage.py 85-92: one `if isinstance(data.get(k), str): data[k] =
fromisoformat(...)` conversion.  A string value is parsed (raising
`ValueError` on unparseable text); any other value is left alone. -/
def convDtField (codec : DtCodec) (data : Doc) (k : String) : Except PyErr Doc :=
  match lookupV data k with
  | some (.str s) =>
    match codec.dec s with
    | some n => .ok (setKey data k (.dt n))
    | Option.none => .error .valueError
  | _ => .ok data

/-- The dataclass field names accepted by `cls(**data)`. -/
def fieldNames : List String :=
  ["name", "provider", "identifier", "account_info", "credentials",
   "created_at", "expires_at", "last_used", "last_refreshed", "metadata"]

def getStrField (d : Doc) (k : String) : Except PyErr String :=
  match lookupV d k with
  | some (.str s) => .ok s
  | _ => .error .typeError

def getTableField (d : Doc) (k : String) : Except PyErr Doc :=
  match lookupV d k with
  | some (.table t) => .ok t
  | _ => .error .typeError

def getDtField (d : Doc) (k : String) : Except PyErr Nat :=
  match lookupV d k with
  | some (.dt n) => .ok n
  | _ => .error .typeError

def getOptDtField (d : Doc) (k : String) : Except PyErr (Option Nat) :=
  match lookupV d k with
  | some (.dt n) => .ok (some n)
  | some .none => .ok Option.none
  | some _ => .error .typeError
  | Option.none => .ok Option.none

/-- The `cls(**data)` construction step: `TypeError` when a required field
(one without a dataclass default) is missing or an unexpected key is
present.  (The model additionally demands the declared field types; the
Python dataclass would accept ill-typed values, a case none of the code
paths produce.) -/
def constructCredential (d : Doc) : Except PyErr OAuthCredential :=
  if d.all (fun p => fieldNames.contains p.fst) then do
    let name ← getStrField d "name"
    let provider ← getStrField d "provider"
    let identifier ← getStrField d "identifier"
    let account_info ← getStrField d "account_info"
    let credentials ← getTableField d "credentials"
    let created_at ← getDtField d "created_at"
    let expires_at ← getOptDtField d "expires_at"
    let last_used ← getOptDtField d "last_used"
    let last_refreshed ← getOptDtField d "last_refreshed"
    let metadata := (lookupV d "metadata").getD .none
    .ok ⟨name, provider, identifier, account_info, credentials, created_at,
         expires_at, last_used, last_refreshed, metadata⟩
  else .error .typeError

/-- storage.py 81-93: `from_dict` (the four datetime conversions in source
order, then construction via `cls(**data)`).  An `Except.error` result
models an exception escaping `from_dict`. -/
def OAuthCredential.from_dict (codec : DtCodec) (data : Doc) :
    Except PyErr OAuthCredential := do
  let d1 ← convDtField codec data "created_at"
  let d2 ← convDtField codec d1 "expires_at"
  let d3 ← convDtField codec d2 "last_used"
  let d4 ← convDtField codec d3 "last_refreshed"
  constructCredential d4

/-! ### Naming / sanitization (storage.py 128-144) -/

/-- Characters kept by the regex class `[a-zA-Z0-9_-]`. -/
def allowedChar (c : Char) : Prop :=
  (97 ≤ c.toNat ∧ c.toNat ≤ 122) ∨ (65 ≤ c.toNat ∧ c.toNat ≤ 90) ∨
    (48 ≤ c.toNat ∧ c.toNat ≤ 57) ∨ c.toNat = 95 ∨ c.toNat = 45

instance (c : Char) : Decidable (allowedChar c) := by
  unfold allowedChar; infer_instance

/-- storage.py 139: `re.sub(r'[^a-zA-Z0-9_-]', '_', name)`. -/
def subInvalid (l : List Char) : List Char :=
  l.map (fun c => if allowedChar c then c else '_')

/-- storage.py 141: `re.sub(r'__+', '_', ...)` — every maximal run of two
or more underscores becomes a single underscore. -/
def collapseUnderscores : List Char → List Char
  | [] => []
  | [c] => [c]
  | a :: b :: rest =>
    if a = '_' ∧ b = '_' then collapseUnderscores (b :: rest)
    else a :: collapseUnderscores (b :: rest)

/-- Remove trailing underscores (the right half of `.strip('_')`). -/
def dropTrailingUnderscores : List Char → List Char
  | [] => []
  | c :: rest =>
    let r := dropTrailingUnderscores rest
    if r = [] ∧ c = '_' then [] else c :: r

/-- storage.py 143: `.strip('_')`. -/
def stripUnderscores (l : List Char) : List Char :=
  dropTrailingUnderscores (l.dropWhile (· = '_'))

/-- storage.py 128-144: `_sanitize_name` on the character list (replace
invalid characters, collapse underscore runs, strip edge underscores,
lowercase).  Every character reaching the `.lower()` step is basic latin,
where `Char.toLower` agrees with Python `str.lower`. -/
def sanitizeList (l : List Char) : List Char :=
  (stripUnderscores (collapseUnderscores (subInvalid l))).map Char.toLower

/-- storage.py 128-144: `_sanitize_name`. -/
def sanitize_name (s : String) : String :=
  String.mk (sanitizeList s.data)

/-- storage.py 146-158: `generate_oauth_name`. -/
def generate_oauth_name (provider identifier : String) : String :=
  provider ++ "_" ++ sanitize_name identifier

/-! ### Storage engine (`OAuthStorage`, storage.py 96-366) -/

/-- The `SecureTokenStorage` collaborator.
Modelled from the spec: the symmetric-encryption primitive is external
(`encrypt_token(value) -> blob`, `decrypt_token(blob) -> value`); a failed
decryption raises, modelled as `Option.none`. -/
structure EncCollab where
  enc : Doc → String
  dec : String → Option Doc

/-- The storage manager configuration (storage.py 103-119): constructed
with `use_encryption`; `token_storage` is a `SecureTokenStorage` when
encryption is on and `None` otherwise. -/
structure OAuthStorage where
  use_encryption : Bool
  token_storage : Option EncCollab

/-- The secrets file: either absent, or holding the `toml.dump` of a
document.  (`__init__` pre-creates an empty file; both states are kept
because `save`/`get` check existence themselves.) -/
inductive FileState where
  | absent
  | stored (d : Doc)
deriving DecidableEq, Repr

/-- Reading the file back with `toml.load`: one dump/load round trip of
the document that was written.  (Every document dumped by this subsystem
is well-formed TOML, so loading does not fail.) -/
def loadDoc (d : Doc) : Doc := rtTable d

/-- storage.py 186-190: the tagged envelope replacing the plaintext
payload when encryption is enabled. -/
def credEnvelope (ts : EncCollab) (payload : Doc) : PyVal :=
  .table [("_encrypted", .bool true), ("_data", .str (ts.enc payload))]

/-- storage.py 181-190: the per-credential record `save` puts in the
`oauth` section (`to_dict`, then the payload replaced by an envelope when
encryption is enabled). -/
def credRecord (st : OAuthStorage) (codec : DtCodec) (c : OAuthCredential) : Doc :=
  let cred_data := c.to_dict codec
  if st.use_encryption then
    match st.token_storage with
    | some ts => setKey cred_data "credentials" (credEnvelope ts c.credentials)
    | Option.none => cred_data
  else cred_data

/-- storage.py 160-204: `save`.  Loads the existing document (missing or
empty file gives an empty document; only the empty document dumps to an
empty file, matching the `st_size > 0` check), ensures the `oauth`
section, inserts the record under `oauth_cred.name`, writes the whole
document back.  When the `oauth` key holds a non-table value the item
assignment raises and the `except` arm returns `False` with the file
untouched. -/
def loadForSave (file : FileState) : Doc :=
  match file with
  | .absent => []
  | .stored d => if d = [] then [] else loadDoc d

/-- storage.py 177-179 and 193: the `oauth` section `save` writes into —
a fresh one when absent, the existing table otherwise; `None` when the
`oauth` key holds a non-table value (the item assignment would raise). -/
def oauthSection (secrets : Doc) : Option Doc :=
  match lookupV secrets "oauth" with
  | Option.none => some []
  | some (.table t) => some t
  | some _ => Option.none

def OAuthStorage.save (st : OAuthStorage) (codec : DtCodec) (file : FileState)
    (c : OAuthCredential) : FileState × Bool :=
  match oauthSection (loadForSave file) with
  | Option.none => (file, false)
  | some t =>
    (.stored (setKey (loadForSave file) "oauth"
      (.table (setKey t c.name (.table (credRecord st codec c))))), true)

/-- storage.py 229-235: the decryption step of `get`.  A value under
`credentials` that is a table with a truthy `_encrypted` is decrypted
(`None` on a missing `_data`, a non-text `_data`, a failed decryption, or
encryption configured off); anything else passes through unchanged. -/
def decryptCredData (st : OAuthStorage) (cred_data : Doc) : Option Doc :=
  match lookupV cred_data "credentials" with
  | some (.table env) =>
    if truthy (lookupV env "_encrypted") then
      match st.token_storage with
      | some ts =>
        match lookupV env "_data" with
        | some (.str blob) =>
          match ts.dec blob with
          | some payload => some (setKey cred_data "credentials" (.table payload))
          | Option.none => Option.none
        | _ => Option.none
      | Option.none => Option.none
    else some cred_data
  | _ => some cred_data

/-- storage.py 206-241: `get`.  Returns `None` when the file, the `oauth`
section, or the key is absent, when the record is not a table, when
decryption fails, or when `from_dict` raises. -/
def OAuthStorage.get (st : OAuthStorage) (codec : DtCodec) (file : FileState)
    (oauth_name : String) : Option OAuthCredential :=
  match file with
  | .absent => Option.none
  | .stored d =>
    match lookupV (loadDoc d) "oauth" with
    | some (.table t) =>
      match lookupV t oauth_name with
      | some (.table cred_data) =>
        match decryptCredData st cred_data with
        | some d' =>
          match OAuthCredential.from_dict codec d' with
          | .ok c => some c
          | .error _ => Option.none
        | Option.none => Option.none
      | _ => Option.none
    | _ => Option.none

/-- storage.py 290-327: `delete`.  Removes the entry, removes the `oauth`
section when it becomes empty, returns `False` when the entry was
absent. -/
def OAuthStorage.delete (st : OAuthStorage) (file : FileState)
    (oauth_name : String) : FileState × Bool :=
  match st with
  | _ =>
    match file with
    | .absent => (file, false)
    | .stored d =>
      let secrets := loadDoc d
      match lookupV secrets "oauth" with
      | some (.table t) =>
        if hasKey t oauth_name then
          let t' := delKey t oauth_name
          let secrets' := if t' = [] then delKey secrets "oauth"
                          else setKey secrets "oauth" (.table t')
          (.stored secrets', true)
        else (file, false)
      | _ => (file, false)

/-- storage.py 329-349: `update_last_used` (`get`, set `last_used` to the
current time, `save`; `False` when `get` found nothing). -/
def OAuthStorage.update_last_used (st : OAuthStorage) (codec : DtCodec)
    (file : FileState) (oauth_name : String) (now : Nat) : FileState × Bool :=
  match st.get codec file oauth_name with
  | Option.none => (file, false)
  | some cred => st.save codec file { cred with last_used := some now }

/-- The record a reader sees under `oauth.<k>` after loading the file. -/
def oauthEntry (file : FileState) (k : String) : Option PyVal :=
  match file with
  | .stored d =>
    match lookupV (loadDoc d) "oauth" with
    | some (.table t) => lookupV t k
    | _ => Option.none
  | .absent => Option.none

/-- The value a reader sees under the top-level key `k` after loading the
file. -/
def topEntry (file : FileState) (k : String) : Option PyVal :=
  match file with
  | .stored d => lookupV (loadDoc d) k
  | .absent => Option.none

/-- The value persisted under `oauth.<name>.credentials` in the file. -/
def storedCredValue (file : FileState) (name : String) : Option PyVal :=
  match file with
  | .stored d =>
    match lookupV d "oauth" with
    | some (.table t) =>
      match lookupV t name with
      | some (.table cd) => lookupV cd "credentials"
      | _ => Option.none
    | _ => Option.none
  | .absent => Option.none

/-! ### File write discipline (storage.py 195-197 and 318-320)

Both `save` and `delete` write the document back with
`with open(self.secrets_file, 'w') as f: toml.dump(secrets, f)`:
opening with mode `'w'` truncates the target in place, then `toml.dump`
serialises the whole document into one string and writes it.  The model
records the sequence of file-system effects and the file contents
observable if the process crashes between effects. -/

inductive FsOp where
  | truncate
  | writeAll (s : String)
deriving DecidableEq, Repr

def applyOp (_file : String) : FsOp → String
  | .truncate => ""
  | .writeAll s => s

def runOps (file : String) (ops : List FsOp) : String :=
  ops.foldl applyOp file

/-- The file contents observable at each crash point (before, between and
after the effects; a crash during the write itself could additionally
leave any prefix, which only adds more intermediate states). -/
def crashStates (file : String) : List FsOp → List String
  | [] => [file]
  | op :: rest => file :: crashStates (applyOp file op) rest

/-- The effect sequence of the write-back step of `save` and `delete`. -/
def saveWriteOps (content : String) : List FsOp :=
  [.truncate, .writeAll content]

/-- A write discipline is atomic for the caller when every
crash-observable state is either the old or the new document. -/
def atomicFor (old new : String) (ops : List FsOp) : Prop :=
  ∀ s ∈ crashStates old ops, s = old ∨ s = new

/-! ### Provider flows (providers.py)

The interactive prompts, the browser round trip and the HTTP calls are
external collaborators; a flow environment records their answers for one
run.  A flow is a pure function from the environment to its boolean
result plus the trace of observable effects (token-exchange calls, the
distinguished console error messages, and `save_oauth_credentials`
calls). -/

inductive FlowEvent where
  | exchangeCalled (code clientId clientSecret : String)
  | oauthFlowFailedMsg
  | stateMismatchMsg
  | exchangeFailedMsg
  | noRefreshTokenMsg
  | tokensReceivedMsg
  | saveCredentials (service : String) (creds : Doc) (config : Option Doc)
  | fbExchangeCalled (shortToken appId appSecret : String)
  | noAccessTokenMsg
  | fbExpiryShown (expirySeconds : Nat)
deriving DecidableEq, Repr

/-- One run of the Google flow: the prompt answers, the CSRF nonce issued
by `generate_state`, the `{code, state}` answer of `start_oauth_flow`
(`None` on failure/timeout), and the token endpoint's JSON answer
(`Except.error` models a `requests` exception). -/
structure GoogleEnv where
  clientId : String
  clientSecret : String
  state : String
  oauthResponse : Option (String × String)
  tokenHttp : Except Unit Doc
  devToken : String
  customerId : String
  propertyId : String

/-- providers.py 223-269: `_exchange_code_for_tokens`.  A transport error
gives `None`; a JSON answer without `refresh_token` prints the
no-refresh-token warning and gives `None`; otherwise the token dict is
returned. -/
def exchange_code_for_tokens (env : GoogleEnv) (code : String) :
    Option Doc × List FlowEvent :=
  match env.tokenHttp with
  | .error _ =>
    (Option.none,
     [.exchangeCalled code env.clientId env.clientSecret, .exchangeFailedMsg])
  | .ok tokens =>
    if hasKey tokens "refresh_token" then
      (some tokens,
       [.exchangeCalled code env.clientId env.clientSecret, .tokensReceivedMsg])
    else
      (Option.none,
       [.exchangeCalled code env.clientId env.clientSecret, .noRefreshTokenMsg])

/-- providers.py 82-221: `GoogleOAuthProvider.authenticate` (the
decision-relevant control flow after the instruction panel). -/
def googleAuthenticate (env : GoogleEnv) (service : String) : Bool × List FlowEvent :=
  if env.clientId = "" ∨ env.clientSecret = "" then (false, [])
  else
    match env.oauthResponse with
    | Option.none => (false, [.oauthFlowFailedMsg])
    | some (code, retState) =>
      if ¬(retState = env.state) then (false, [.stateMismatchMsg])
      else
        match exchange_code_for_tokens env code with
        | (Option.none, evs) => (false, evs)
        | (some tokens, evs) =>
          let credentials : Doc :=
            [("client_id", .str env.clientId),
             ("client_secret", .str env.clientSecret),
             ("refresh_token", (lookupV tokens "refresh_token").getD .none),
             ("project_id", .str "")]
          if service = "google_ads" then
            let credentials :=
              if ¬(env.devToken = "") then
                setKey credentials "developer_token" (.str env.devToken)
              else credentials
            let credentials :=
              if ¬(env.customerId = "") then
                setKey credentials "customer_id" (.str env.customerId)
              else credentials
            (true, evs ++ [.saveCredentials service credentials Option.none])
          else if service = "google_analytics" then
            if ¬(env.propertyId = "") then
              (true, evs ++ [.saveCredentials service credentials
                (some [("property_id", .str env.propertyId)])])
            else (true, evs ++ [.saveCredentials service credentials Option.none])
          else (true, evs ++ [.saveCredentials service credentials Option.none])

/-- One run of the Facebook flow: prompt answers, the exchange endpoint's
JSON answer, and the current time in seconds (for the expiry shown to the
user). -/
structure FbEnv where
  shortToken : String
  appId : String
  appSecret : String
  accountId : String
  exchangeHttp : Except Unit Doc
  nowSeconds : Nat

/-- providers.py 373-410: `_exchange_token`.  A transport error gives
`None`; a falsy `access_token` in the JSON answer gives `None`; otherwise
the token value is returned. -/
def fb_exchange_token (env : FbEnv) : Option PyVal × List FlowEvent :=
  match env.exchangeHttp with
  | .error _ =>
    (Option.none,
     [.fbExchangeCalled env.shortToken env.appId env.appSecret, .exchangeFailedMsg])
  | .ok data =>
    let tok := lookupV data "access_token"
    if truthy tok then
      (tok, [.fbExchangeCalled env.shortToken env.appId env.appSecret])
    else
      (Option.none,
       [.fbExchangeCalled env.shortToken env.appId env.appSecret, .noAccessTokenMsg])

/-- providers.py 284-371: `FacebookOAuthProvider.authenticate`.  On a
successful exchange the flow saves `{access_token, account_id}` and then
shows the user an expiry of now plus 60 days. -/
def fbAuthenticate (env : FbEnv) : Bool × List FlowEvent :=
  if env.shortToken = "" then (false, [])
  else if env.appId = "" ∨ env.appSecret = "" then (false, [])
  else
    match fb_exchange_token env with
    | (Option.none, evs) => (false, evs)
    | (some tok, evs) =>
      let credentials : Doc :=
        [("access_token", tok), ("account_id", .str env.accountId)]
      (true, evs ++ [.saveCredentials "facebook_ads" credentials Option.none,
                     .fbExpiryShown (env.nowSeconds + 60 * 86400)])

/-! ### Concrete instances used to evaluate the theorems on closed inputs -/

/-- The ceiling-division day count demanded by the specification sentence
(`max(0, ceil(expires_at - now))` in days). -/
def ceilDivDays (delta : Int) : Int :=
  -(Int.fdiv (-delta) 86400)

/-- A credential expiring 3600 seconds (one hour) after the epoch. -/
def credExp3600 : OAuthCredential :=
  ⟨"n", "p", "i", "a", [], 0, some 3600, Option.none, Option.none, .none⟩

/-- A credential with no expiry and no optional timestamps. -/
def credNoExpiry : OAuthCredential :=
  ⟨"google_alice", "google", "alice", "Alice",
   [("token", .str "tok1")], 10, Option.none, Option.none, Option.none, .none⟩

/-- A credential with every optional field present. -/
def credFull : OAuthCredential :=
  ⟨"google_bob", "google", "bob", "Bob",
   [("refresh_token", .str "tok2")], 10, some 20, some 30, some 40,
   .table [("property_id", .str "123")]⟩

/-- A deterministic encryption collaborator decrypting the fixed blob
"blob0" to the given payload. -/
def constEnc (payload : Doc) : EncCollab where
  enc := fun _ => "blob0"
  dec := fun s => if s = "blob0" then some payload else Option.none

/-- A serialized credential record missing the required `name` field. -/
def missingNameData : Doc :=
  [("provider", .str "google"), ("identifier", .str "me"),
   ("account_info", .str "acct"), ("credentials", .table []),
   ("created_at", .str (unaryCodec.enc 5))]

/-- A Google flow run whose browser round trip returns a state different
from the issued nonce. -/
def googleEnvMismatch : GoogleEnv :=
  ⟨"id1", "secret1", "nonce1", some ("authcode1", "evil1"),
   .ok [("refresh_token", .str "r1")], "", "", ""⟩

/-- A Google flow run whose token exchange answers with an access token
but no refresh token. -/
def googleEnvNoRefresh : GoogleEnv :=
  ⟨"id2", "secret2", "nonce2", some ("authcode2", "nonce2"),
   .ok [("access_token", .str "at2")], "", "", ""⟩

/-- A Facebook flow run whose token exchange succeeds. -/
def fbEnvOk : FbEnv :=
  ⟨"short3", "app3", "appsec3", "act_333",
   .ok [("access_token", .str "LONG3")], 1700000000⟩

/-! ### Association list and key lemmas -/

theorem lookupV_setKey_self (d : Doc) (k : String) (v : PyVal) :
    lookupV (setKey d k v) k = some v := by
  induction d with
  | nil => simp [setKey, lookupV]
  | cons p rest ih =>
    obtain ⟨k', v'⟩ := p
    by_cases h : k' = k
    · simp [setKey, h, lookupV]
    · simp [setKey, h, lookupV, ih]

theorem lookupV_setKey_ne (d : Doc) (k : String) (v : PyVal) (r : String)
    (h : ¬(k = r)) : lookupV (setKey d k v) r = lookupV d r := by
  induction d with
  | nil => simp [setKey, lookupV, h]
  | cons p rest ih =>
    obtain ⟨k', v'⟩ := p
    by_cases h' : k' = k
    · subst h'
      simp [setKey, lookupV, h]
    · simp [setKey, h', lookupV, ih]

theorem hasKey_false_lookupV {d : Doc} {k : String}
    (h : hasKey d k = false) : lookupV d k = Option.none := by
  induction d with
  | nil => rfl
  | cons p rest ih =>
    obtain ⟨k', v'⟩ := p
    simp [hasKey] at h
    simp [lookupV, h.1, ih h.2]

theorem lookupV_some_hasKey {d : Doc} {k : String} {v : PyVal}
    (h : lookupV d k = some v) : hasKey d k = true := by
  induction d with
  | nil => simp [lookupV] at h
  | cons p rest ih =>
    obtain ⟨k', v'⟩ := p
    by_cases h' : k' = k
    · simp [hasKey, h']
    · simp [lookupV, h'] at h
      simp [hasKey, ih h]

theorem hasKey_setKey (d : Doc) (k : String) (v : PyVal) (r : String) :
    hasKey (setKey d k v) r = ((k = r : Bool) || hasKey d r) := by
  induction d with
  | nil => simp [setKey, hasKey]
  | cons p rest ih =>
    obtain ⟨k', v'⟩ := p
    by_cases h' : k' = k
    · subst h'
      by_cases hr : k' = r <;> simp [setKey, hasKey, hr]
    · by_cases hr : k' = r
      · subst hr
        simp [setKey, hasKey, h']
      · simp [setKey, hasKey, h', hr, ih]

/-! ### Storage lemmas -/

/-- A successful `save` writes the full record (with the encryption step
applied) under the credential's name inside the `oauth` section of the
loaded document. -/
theorem save_success_shape (st : OAuthStorage) (codec : DtCodec) (file : FileState)
    (c : OAuthCredential) (file' : FileState)
    (hsave : st.save codec file c = (file', true)) :
    ∃ t, oauthSection (loadForSave file) = some t ∧
      file' = .stored (setKey (loadForSave file) "oauth"
        (.table (setKey t c.name (.table (credRecord st codec c))))) := by
  unfold OAuthStorage.save at hsave
  cases h : oauthSection (loadForSave file) with
  | none =>
    rw [h] at hsave
    simp at hsave
  | some t =>
    rw [h] at hsave
    refine ⟨t, rfl, ?_⟩
    exact (Prod.mk.injEq _ _ _ _ ▸ hsave).1.symm

/-! ## C1 -/

/-- C1: with encryption enabled, a successful `save` persists the secret
payload under the credential's name as the tagged envelope
`{_encrypted = true, _data = <blob from the encryption collaborator>}`,
and that on-disk value is not equal to the plaintext payload (for any
non-empty payload, which never uses the reserved `_encrypted` tag). -/
theorem c1_save_encrypts_payload (ts : EncCollab) (codec : DtCodec)
    (file : FileState) (c : OAuthCredential) (file' : FileState)
    (hne : ¬(c.credentials = []))
    (hkey : hasKey c.credentials "_encrypted" = false)
    (hsave : OAuthStorage.save ⟨true, some ts⟩ codec file c = (file', true)) :
    storedCredValue file' c.name = some (credEnvelope ts c.credentials) ∧
    ¬(credEnvelope ts c.credentials = PyVal.table c.credentials) := by
  constructor
  · obtain ⟨t, _, hshape⟩ := save_success_shape _ _ _ _ _ hsave
    subst hshape
    have hrec : credRecord ⟨true, some ts⟩ codec c =
        setKey (c.to_dict codec) "credentials" (credEnvelope ts c.credentials) := rfl
    simp only [storedCredValue, lookupV_setKey_self, hrec]
  · intro h
    unfold credEnvelope at h
    cases h' : c.credentials with
    | nil => exact hne h'
    | cons p rest =>
      rw [h'] at h
      have := PyVal.table.inj h
      rw [h'] at hkey
      rw [← this] at hkey
      simp [hasKey] at hkey

/-- C1 witness. -/
theorem c1_witness :
    storedCredValue
      (OAuthStorage.save ⟨true, some (constEnc credNoExpiry.credentials)⟩ unaryCodec
        (.stored []) credNoExpiry).fst credNoExpiry.name =
      some (credEnvelope (constEnc credNoExpiry.credentials) credNoExpiry.credentials) ∧
    ¬(credEnvelope (constEnc credNoExpiry.credentials) credNoExpiry.credentials =
      PyVal.table credNoExpiry.credentials) :=
  c1_save_encrypts_payload (constEnc credNoExpiry.credentials) unaryCodec
    (.stored []) credNoExpiry _ (by decide) (by decide) rfl

/-! ## C5 -/

/-- C5 counterexample: one hour before expiry the code reports 0 days
(`timedelta.days` floors), while the claimed ceiling formula demands 1. -/
theorem c5_counterexample :
    OAuthCredential.days_until_expiry credExp3600 0 = some 0 ∧
    ¬(OAuthCredential.days_until_expiry credExp3600 0 =
      some (max 0 (ceilDivDays (3600 - 0)))) := by
  constructor
  · decide
  · decide

/-- C5 amended: `days_until_expiry` returns null exactly when there is no
expiry, and otherwise `max(0, floor((expires_at - now) / 86400))` whole
days — the floor of the remaining time, not the ceiling. -/
theorem c5_amended (c : OAuthCredential) (now : Nat) :
    (c.expires_at = Option.none → c.days_until_expiry now = Option.none) ∧
    (∀ e, c.expires_at = some e →
      c.days_until_expiry now =
        some (max 0 (Int.fdiv ((e : Int) - (now : Int)) 86400))) := by
  constructor
  · intro h
    simp [OAuthCredential.days_until_expiry, h]
  · intro e h
    simp [OAuthCredential.days_until_expiry, h, timedeltaDays]

/-- C5 amended, witness. -/
theorem c5_amended_witness :
    OAuthCredential.days_until_expiry credExp3600 0 =
      some (max 0 (Int.fdiv (((3600 : Nat) : Int) - ((0 : Nat) : Int)) 86400)) :=
  (c5_amended credExp3600 0).2 3600 rfl

/-! ## C7 -/

/-- C7 counterexample: the in-place truncate-then-write of `save`/`delete`
exposes an empty intermediate state that is neither the old nor the new
document, so the write is not crash-atomic (no temp-then-replace). -/
theorem c7_counterexample :
    ¬ atomicFor "[oauth]\n" "[other]\n" (saveWriteOps "[other]\n") := by
  intro hat
  rcases hat "" (by simp [crashStates, saveWriteOps, applyOp]) with h | h <;>
    exact absurd h (by decide)

/-- C7 amended: `save` and `delete` rewrite the secrets file in place by
truncating the target and writing the full document; completion leaves
the new document, but a crash between the truncate and the write leaves
an empty file, so the discipline is not write-to-temp-then-replace. -/
theorem c7_amended (old content : String) (h1 : ¬(old = "")) (h2 : ¬(content = "")) :
    runOps old (saveWriteOps content) = content ∧
    "" ∈ crashStates old (saveWriteOps content) ∧
    ¬ atomicFor old content (saveWriteOps content) := by
  refine ⟨rfl, ?_, ?_⟩
  · simp [crashStates, saveWriteOps, applyOp]
  · intro hat
    rcases hat "" (by simp [crashStates, saveWriteOps, applyOp]) with h | h
    · exact h1 h.symm
    · exact h2 h.symm

/-- C7 amended, witness. -/
theorem c7_amended_witness :
    runOps "x = 1" (saveWriteOps "y = 2") = "y = 2" ∧
    "" ∈ crashStates "x = 1" (saveWriteOps "y = 2") ∧
    ¬ atomicFor "x = 1" "y = 2" (saveWriteOps "y = 2") :=
  c7_amended "x = 1" "y = 2" (by decide) (by decide)

/-! ## C3 -/

/-- C3: in the authorization-code flow, whenever the collaborator's
returned state differs from the issued nonce, the flow fails with the
state-mismatch (CSRF) outcome and the token-exchange step is never
invoked. -/
theorem c3_state_mismatch (env : GoogleEnv) (service code retState : String)
    (hid : ¬(env.clientId = "")) (hsec : ¬(env.clientSecret = ""))
    (hresp : env.oauthResponse = some (code, retState))
    (hmis : ¬(retState = env.state)) :
    googleAuthenticate env service = (false, [.stateMismatchMsg]) ∧
    (∀ a b cs, ¬(FlowEvent.exchangeCalled a b cs ∈
      (googleAuthenticate env service).snd)) := by
  have hmain : googleAuthenticate env service = (false, [.stateMismatchMsg]) := by
    simp [googleAuthenticate, hid, hsec, hresp, hmis]
  refine ⟨hmain, ?_⟩
  intro a b cs
  rw [hmain]
  simp

/-- C3 witness. -/
theorem c3_witness :
    googleAuthenticate googleEnvMismatch "google_ads" = (false, [.stateMismatchMsg]) ∧
    (∀ a b cs, ¬(FlowEvent.exchangeCalled a b cs ∈
      (googleAuthenticate googleEnvMismatch "google_ads").snd)) :=
  c3_state_mismatch googleEnvMismatch "google_ads" "authcode1" "evil1"
    (by decide) (by decide) rfl (by decide)

/-! ## C4 -/

/-- C4: in the authorization-code flow, a token-exchange answer without a
refresh token makes the flow fail with the no-refresh-token outcome, and
no credential is handed to storage. -/
theorem c4_no_refresh_token (env : GoogleEnv) (service code : String) (tokens : Doc)
    (hid : ¬(env.clientId = "")) (hsec : ¬(env.clientSecret = ""))
    (hresp : env.oauthResponse = some (code, env.state))
    (hhttp : env.tokenHttp = .ok tokens)
    (hnorf : hasKey tokens "refresh_token" = false) :
    googleAuthenticate env service =
      (false, [.exchangeCalled code env.clientId env.clientSecret,
               .noRefreshTokenMsg]) ∧
    (∀ svc creds cfg, ¬(FlowEvent.saveCredentials svc creds cfg ∈
      (googleAuthenticate env service).snd)) := by
  have hmain : googleAuthenticate env service =
      (false, [.exchangeCalled code env.clientId env.clientSecret,
               .noRefreshTokenMsg]) := by
    simp [googleAuthenticate, exchange_code_for_tokens, hid, hsec, hresp, hhttp, hnorf]
  refine ⟨hmain, ?_⟩
  intro svc creds cfg
  rw [hmain]
  simp

/-- C4 witness. -/
theorem c4_witness :
    googleAuthenticate googleEnvNoRefresh "google_ads" =
      (false, [.exchangeCalled "authcode2" "id2" "secret2", .noRefreshTokenMsg]) ∧
    (∀ svc creds cfg, ¬(FlowEvent.saveCredentials svc creds cfg ∈
      (googleAuthenticate googleEnvNoRefresh "google_ads").snd)) :=
  c4_no_refresh_token googleEnvNoRefresh "google_ads" "authcode2"
    [("access_token", .str "at2")] (by decide) (by decide) rfl rfl (by decide)

/-! ## C8 -/

/-- C8 counterexample: a successful token-exchange run of the Facebook
flow persists the payload `{access_token, account_id}` — it has no
`expires_at` field at all; the now-plus-60-days expiry is only shown to
the user, never attached to a credential. -/
theorem c8_counterexample :
    fbAuthenticate fbEnvOk =
      (true, [.fbExchangeCalled "short3" "app3" "appsec3",
              .saveCredentials "facebook_ads"
                [("access_token", .str "LONG3"), ("account_id", .str "act_333")]
                Option.none,
              .fbExpiryShown (1700000000 + 60 * 86400)]) ∧
    hasKey [("access_token", PyVal.str "LONG3"), ("account_id", PyVal.str "act_333")]
      "expires_at" = false := by
  exact ⟨rfl, rfl⟩

/-- C8 amended: on a successful exchange the Facebook flow saves exactly
`{access_token, account_id}` (a payload without any `expires_at`) and then
reports an expiry of now plus the fixed 60-day window (60 * 86400 seconds)
to the user only. -/
theorem c8_amended (env : FbEnv) (data : Doc) (tok : PyVal)
    (hst : ¬(env.shortToken = "")) (hai : ¬(env.appId = ""))
    (hasc : ¬(env.appSecret = ""))
    (hhttp : env.exchangeHttp = .ok data)
    (htok : lookupV data "access_token" = some tok)
    (htr : truthy (some tok) = true) :
    fbAuthenticate env =
      (true, [.fbExchangeCalled env.shortToken env.appId env.appSecret,
              .saveCredentials "facebook_ads"
                [("access_token", tok), ("account_id", .str env.accountId)]
                Option.none,
              .fbExpiryShown (env.nowSeconds + 60 * 86400)]) ∧
    hasKey [("access_token", tok), ("account_id", PyVal.str env.accountId)]
      "expires_at" = false := by
  constructor
  · simp [fbAuthenticate, fb_exchange_token, hst, hai, hasc, hhttp, htok, htr]
  · simp [hasKey]

/-- C8 amended, witness. -/
theorem c8_amended_witness :
    fbAuthenticate fbEnvOk =
      (true, [.fbExchangeCalled "short3" "app3" "appsec3",
              .saveCredentials "facebook_ads"
                [("access_token", .str "LONG3"), ("account_id", .str "act_333")]
                Option.none,
              .fbExpiryShown (1700000000 + 60 * 86400)]) ∧
    hasKey [("access_token", PyVal.str "LONG3"), ("account_id", PyVal.str "act_333")]
      "expires_at" = false :=
  c8_amended fbEnvOk [("access_token", .str "LONG3")] (.str "LONG3")
    (by decide) (by decide) (by decide) rfl rfl (by decide)

/-! ## C6 -/

theorem exceptBind_error {α β : Type} (e : PyErr) (f : α → Except PyErr β) :
    (Except.error e >>= f : Except PyErr β) = .error e := rfl

theorem exceptBind_ok {α β : Type} (a : α) (f : α → Except PyErr β) :
    (Except.ok a >>= f : Except PyErr β) = f a := rfl

theorem getStrField_ok_hasKey {d : Doc} {k s : String}
    (h : getStrField d k = .ok s) : hasKey d k = true := by
  cases hl : lookupV d k with
  | none => simp [getStrField, hl] at h
  | some v => exact lookupV_some_hasKey hl

theorem getTableField_ok_hasKey {d : Doc} {k : String} {t : Doc}
    (h : getTableField d k = .ok t) : hasKey d k = true := by
  cases hl : lookupV d k with
  | none => simp [getTableField, hl] at h
  | some v => exact lookupV_some_hasKey hl

theorem getDtField_ok_hasKey {d : Doc} {k : String} {n : Nat}
    (h : getDtField d k = .ok n) : hasKey d k = true := by
  cases hl : lookupV d k with
  | none => simp [getDtField, hl] at h
  | some v => exact lookupV_some_hasKey hl

/-- A datetime conversion step cannot create a key that was absent. -/
theorem convDtField_hasKey_false {codec : DtCodec} {d d' : Doc} {k r : String}
    (hr : hasKey d r = false) (h : convDtField codec d k = .ok d') :
    hasKey d' r = false := by
  unfold convDtField at h
  cases hl : lookupV d k with
  | none =>
    rw [hl] at h
    dsimp only at h
    cases h
    exact hr
  | some v =>
    rw [hl] at h
    cases v with
    | str s =>
      dsimp only at h
      cases hdec : codec.dec s with
      | none =>
        rw [hdec] at h
        dsimp only at h
        exact Except.noConfusion h
      | some n =>
        rw [hdec] at h
        dsimp only at h
        cases h
        rw [hasKey_setKey]
        have hk : ¬(k = r) := by
          intro hkr
          subst hkr
          rw [hasKey_false_lookupV hr] at hl
          cases hl
        simp [hk, hr]
    | bool b => dsimp only at h; cases h; exact hr
    | int n => dsimp only at h; cases h; exact hr
    | none => dsimp only at h; cases h; exact hr
    | dt n => dsimp only at h; cases h; exact hr
    | table kvs => dsimp only at h; cases h; exact hr

/-- A successful `cls(**data)` construction implies every required
dataclass field was present. -/
theorem constructCredential_required {d : Doc} {cred : OAuthCredential}
    (hok : constructCredential d = .ok cred) (r : String)
    (hr : r ∈ ["name", "provider", "identifier", "account_info",
               "credentials", "created_at"]) :
    hasKey d r = true := by
  unfold constructCredential at hok
  by_cases hall : d.all (fun p => fieldNames.contains p.fst)
  case neg =>
    rw [if_neg hall] at hok
    exact Except.noConfusion hok
  rw [if_pos hall] at hok
  cases h1 : getStrField d "name" with
  | error e => simp [h1, exceptBind_error] at hok
  | ok v1 =>
  simp only [h1, exceptBind_ok] at hok
  cases h2 : getStrField d "provider" with
  | error e => simp [h2, exceptBind_error] at hok
  | ok v2 =>
  simp only [h2, exceptBind_ok] at hok
  cases h3 : getStrField d "identifier" with
  | error e => simp [h3, exceptBind_error] at hok
  | ok v3 =>
  simp only [h3, exceptBind_ok] at hok
  cases h4 : getStrField d "account_info" with
  | error e => simp [h4, exceptBind_error] at hok
  | ok v4 =>
  simp only [h4, exceptBind_ok] at hok
  cases h5 : getTableField d "credentials" with
  | error e => simp [h5, exceptBind_error] at hok
  | ok v5 =>
  simp only [h5, exceptBind_ok] at hok
  cases h6 : getDtField d "created_at" with
  | error e => simp [h6, exceptBind_error] at hok
  | ok v6 =>
  fin_cases hr
  · exact getStrField_ok_hasKey h1
  · exact getStrField_ok_hasKey h2
  · exact getStrField_ok_hasKey h3
  · exact getStrField_ok_hasKey h4
  · exact getTableField_ok_hasKey h5
  · exact getDtField_ok_hasKey h6

/-- C6 counterexample: on a payload missing the required `name` field,
`from_dict` raises `TypeError` (the `cls(**data)` call), modelled as an
exceptional result — it does not return a structured rejection value. -/
theorem c6_counterexample :
    OAuthCredential.from_dict unaryCodec missingNameData =
      Except.error PyErr.typeError := by
  rfl

/-- C6 amended: a payload missing any required field (`name`, `provider`,
`identifier`, `account_info`, `credentials`, `created_at`) makes
`from_dict` raise an exception (modelled as an `Except.error`); callers
such as `get` catch it and map it to "not found". -/
theorem c6_amended (codec : DtCodec) (data : Doc) (r : String)
    (hreq : r ∈ ["name", "provider", "identifier", "account_info",
                 "credentials", "created_at"])
    (hmiss : hasKey data r = false) :
    ∃ e, OAuthCredential.from_dict codec data = .error e := by
  cases hfd : OAuthCredential.from_dict codec data with
  | error e => exact ⟨e, rfl⟩
  | ok cred =>
    exfalso
    unfold OAuthCredential.from_dict at hfd
    cases h1 : convDtField codec data "created_at" with
    | error e => simp [h1, exceptBind_error] at hfd
    | ok d1 =>
    simp only [h1, exceptBind_ok] at hfd
    cases h2 : convDtField codec d1 "expires_at" with
    | error e => simp [h2, exceptBind_error] at hfd
    | ok d2 =>
    simp only [h2, exceptBind_ok] at hfd
    cases h3 : convDtField codec d2 "last_used" with
    | error e => simp [h3, exceptBind_error] at hfd
    | ok d3 =>
    simp only [h3, exceptBind_ok] at hfd
    cases h4 : convDtField codec d3 "last_refreshed" with
    | error e => simp [h4, exceptBind_error] at hfd
    | ok d4 =>
    simp only [h4, exceptBind_ok] at hfd
    have hm1 := convDtField_hasKey_false hmiss h1
    have hm2 := convDtField_hasKey_false hm1 h2
    have hm3 := convDtField_hasKey_false hm2 h3
    have hm4 := convDtField_hasKey_false hm3 h4
    have hreqd := constructCredential_required hfd r hreq
    rw [hm4] at hreqd
    cases hreqd

/-- C6 amended, witness. -/
theorem c6_amended_witness :
    ∃ e, OAuthCredential.from_dict unaryCodec missingNameData = .error e :=
  c6_amended unaryCodec missingNameData "name" (by decide) (by decide)

/-! ## C9: character-level lemmas -/

theorem toNat_ofNat_of_lt {n : Nat} (h : n < 55296) : (Char.ofNat n).toNat = n := by
  have hv : n.isValidChar := Or.inl h
  simp [Char.ofNat, dif_pos hv, Char.ofNatAux, Char.toNat, UInt32.toNat]

theorem toLower_eq_self {c : Char} (h : ¬(65 ≤ c.toNat ∧ c.toNat ≤ 90)) :
    Char.toLower c = c := by
  simp only [Char.toLower]
  rw [if_neg]
  exact fun hh => h ⟨hh.1, hh.2⟩

theorem toLower_toNat_of_upper {c : Char} (h1 : 65 ≤ c.toNat) (h2 : c.toNat ≤ 90) :
    (Char.toLower c).toNat = c.toNat + 32 := by
  simp only [Char.toLower]
  rw [if_pos ⟨h1, h2⟩]
  exact toNat_ofNat_of_lt (by omega)

theorem allowedChar_toLower {c : Char} (h : allowedChar c) :
    allowedChar (Char.toLower c) := by
  by_cases hu : 65 ≤ c.toNat ∧ c.toNat ≤ 90
  · unfold allowedChar
    rw [toLower_toNat_of_upper hu.1 hu.2]
    left
    omega
  · rw [toLower_eq_self hu]
    exact h

theorem toLower_not_upper (c : Char) :
    ¬(65 ≤ (Char.toLower c).toNat ∧ (Char.toLower c).toNat ≤ 90) := by
  by_cases hu : 65 ≤ c.toNat ∧ c.toNat ≤ 90
  · rw [toLower_toNat_of_upper hu.1 hu.2]
    omega
  · rw [toLower_eq_self hu]
    exact hu

theorem toLower_underscore_iff {c : Char} : Char.toLower c = '_' ↔ c = '_' := by
  constructor
  · intro h
    by_cases hu : 65 ≤ c.toNat ∧ c.toNat ≤ 90
    · exfalso
      have h95 : ('_' : Char).toNat = 95 := by decide
      have := congrArg Char.toNat h
      rw [toLower_toNat_of_upper hu.1 hu.2, h95] at this
      omega
    · rw [toLower_eq_self hu] at h
      exact h
  · intro h
    subst h
    decide

theorem toLower_idem (c : Char) : Char.toLower (Char.toLower c) = Char.toLower c :=
  toLower_eq_self (toLower_not_upper c)

/-! ## C9: stage lemmas -/

theorem mem_subInvalid {l : List Char} {c : Char} (h : c ∈ subInvalid l) :
    allowedChar c := by
  unfold subInvalid at h
  rcases List.mem_map.mp h with ⟨a, _, ha⟩
  by_cases hx : allowedChar a
  · rw [if_pos hx] at ha
    exact ha ▸ hx
  · rw [if_neg hx] at ha
    rw [← ha]
    decide

theorem subInvalid_eq_self {l : List Char} (h : ∀ c ∈ l, allowedChar c) :
    subInvalid l = l := by
  induction l with
  | nil => rfl
  | cons a tl ih =>
    unfold subInvalid
    simp only [List.map_cons]
    rw [if_pos (h a (by simp))]
    have := ih (fun c hc => h c (by simp [hc]))
    unfold subInvalid at this
    rw [this]

/-- No two adjacent underscores. -/
def noDoubleUnderscore : List Char → Prop
  | [] => True
  | [_] => True
  | a :: b :: rest => ¬(a = '_' ∧ b = '_') ∧ noDoubleUnderscore (b :: rest)

theorem noDD_tail {a : Char} {l : List Char}
    (h : noDoubleUnderscore (a :: l)) : noDoubleUnderscore l := by
  cases l with
  | nil => trivial
  | cons b rest => exact h.2

theorem collapse_head (x : Char) (xs : List Char) :
    ∃ t, collapseUnderscores (x :: xs) = x :: t := by
  induction xs generalizing x with
  | nil => exact ⟨[], rfl⟩
  | cons b rest ih =>
    by_cases hx : x = '_' ∧ b = '_'
    · obtain ⟨t, ht⟩ := ih b
      refine ⟨t, ?_⟩
      simp only [collapseUnderscores]
      rw [if_pos hx, ht, hx.1, hx.2]
    · refine ⟨collapseUnderscores (b :: rest), ?_⟩
      simp only [collapseUnderscores]
      rw [if_neg hx]

theorem noDD_collapse (l : List Char) :
    noDoubleUnderscore (collapseUnderscores l) := by
  induction l with
  | nil => trivial
  | cons a tl ih =>
    cases tl with
    | nil => trivial
    | cons b rest =>
      by_cases hx : a = '_' ∧ b = '_'
      · simp only [collapseUnderscores]
        rw [if_pos hx]
        exact ih
      · simp only [collapseUnderscores]
        rw [if_neg hx]
        obtain ⟨t, ht⟩ := collapse_head b rest
        rw [ht]
        rw [ht] at ih
        exact ⟨hx, ih⟩

theorem collapse_eq_self {l : List Char} (h : noDoubleUnderscore l) :
    collapseUnderscores l = l := by
  induction l with
  | nil => rfl
  | cons a tl ih =>
    cases tl with
    | nil => rfl
    | cons b rest =>
      simp only [collapseUnderscores]
      rw [if_neg h.1, ih h.2]

theorem mem_collapse {l : List Char} {c : Char}
    (h : c ∈ collapseUnderscores l) : c ∈ l := by
  induction l with
  | nil => exact absurd h (by simp [collapseUnderscores])
  | cons a tl ih =>
    cases tl with
    | nil =>
      simp only [collapseUnderscores] at h
      exact h
    | cons b rest =>
      simp only [collapseUnderscores] at h
      by_cases hx : a = '_' ∧ b = '_'
      · rw [if_pos hx] at h
        simp [ih h]
      · rw [if_neg hx] at h
        rcases List.mem_cons.mp h with h' | h'
        · simp [h']
        · simp [ih h']

theorem dropWhile_head_not (l : List Char) :
    ∀ x t, l.dropWhile (· = '_') = x :: t → ¬(x = '_') := by
  induction l with
  | nil => intro x t h; simp at h
  | cons a tl ih =>
    intro x t h
    by_cases ha : a = '_'
    · rw [List.dropWhile_cons] at h
      simp only [ha] at h
      simp at h
      exact ih x t h
    · rw [List.dropWhile_cons] at h
      simp only [decide_eq_true_eq] at h
      rw [if_neg ha] at h
      cases h
      exact ha

theorem noDD_dropWhile {l : List Char} (h : noDoubleUnderscore l) :
    noDoubleUnderscore (l.dropWhile (· = '_')) := by
  induction l with
  | nil => trivial
  | cons a tl ih =>
    rw [List.dropWhile_cons]
    by_cases ha : a = '_'
    · rw [if_pos (by simp [ha])]
      exact ih (noDD_tail h)
    · simp only [decide_eq_true_eq]
      rw [if_neg ha]
      exact h

theorem mem_dropWhile {l : List Char} {c : Char}
    (h : c ∈ l.dropWhile (· = '_')) : c ∈ l := by
  induction l with
  | nil => simp at h
  | cons a tl ih =>
    rw [List.dropWhile_cons] at h
    by_cases ha : (decide (a = '_')) = true
    · rw [if_pos ha] at h
      simp [ih h]
    · rw [if_neg ha] at h
      exact h

theorem dropWhile_eq_self {l : List Char}
    (h : ¬(l.head? = some '_')) : l.dropWhile (· = '_') = l := by
  cases l with
  | nil => rfl
  | cons a tl =>
    rw [List.dropWhile_cons]
    simp only [decide_eq_true_eq]
    rw [if_neg]
    intro ha
    exact h (by simp [ha])

theorem dt_cons (c : Char) (rest : List Char) :
    dropTrailingUnderscores (c :: rest) = [] ∨
    dropTrailingUnderscores (c :: rest) = c :: dropTrailingUnderscores rest := by
  simp only [dropTrailingUnderscores]
  by_cases hc : dropTrailingUnderscores rest = [] ∧ c = '_'
  · rw [if_pos hc]
    exact Or.inl rfl
  · rw [if_neg hc]
    exact Or.inr rfl

theorem dt_getLast_ne (l : List Char) :
    ¬((dropTrailingUnderscores l).getLast? = some '_') := by
  induction l with
  | nil => simp [dropTrailingUnderscores]
  | cons c rest ih =>
    simp only [dropTrailingUnderscores]
    by_cases hc : dropTrailingUnderscores rest = [] ∧ c = '_'
    · rw [if_pos hc]
      simp
    · rw [if_neg hc]
      cases hr : dropTrailingUnderscores rest with
      | nil =>
        have hcne : ¬(c = '_') := fun h => hc ⟨hr, h⟩
        simp [List.getLast?, hcne]
      | cons x t =>
        rw [List.getLast?_cons_cons]
        rw [hr] at ih
        exact ih

theorem dt_eq_self {l : List Char}
    (h : ¬(l.getLast? = some '_')) : dropTrailingUnderscores l = l := by
  induction l with
  | nil => rfl
  | cons c rest ih =>
    cases rest with
    | nil =>
      have hc : ¬(c = '_') := by
        intro hc
        exact h (by simp [List.getLast?, hc])
      simp only [dropTrailingUnderscores]
      rw [if_neg (fun hh => hc hh.2)]
    | cons b rt =>
      rw [List.getLast?_cons_cons] at h
      have hin := ih h
      have h1 : dropTrailingUnderscores (c :: b :: rt) =
          if (dropTrailingUnderscores (b :: rt) = [] ∧ c = '_') then []
          else c :: dropTrailingUnderscores (b :: rt) := rfl
      rw [h1, hin]
      rw [if_neg (by simp)]

theorem noDD_dt {l : List Char} (h : noDoubleUnderscore l) :
    noDoubleUnderscore (dropTrailingUnderscores l) := by
  induction l with
  | nil => trivial
  | cons c rest ih =>
    rcases dt_cons c rest with hd | hd
    · rw [hd]; trivial
    · rw [hd]
      cases rest with
      | nil => trivial
      | cons b rt =>
        rcases dt_cons b rt with hd2 | hd2
        · rw [hd2]; trivial
        · rw [hd2]
          have ihr := ih (noDD_tail h)
          rw [hd2] at ihr
          exact ⟨h.1, ihr⟩

theorem mem_dt {l : List Char} {c : Char}
    (h : c ∈ dropTrailingUnderscores l) : c ∈ l := by
  induction l with
  | nil => simp [dropTrailingUnderscores] at h
  | cons a rest ih =>
    rcases dt_cons a rest with hd | hd
    · rw [hd] at h; simp at h
    · rw [hd] at h
      rcases List.mem_cons.mp h with h' | h'
      · simp [h']
      · simp [ih h']

theorem dt_head {l : List Char} {x : Char} {t : List Char}
    (h : dropTrailingUnderscores l = x :: t) : l.head? = some x := by
  cases l with
  | nil => simp [dropTrailingUnderscores] at h
  | cons c rest =>
    rcases dt_cons c rest with hd | hd
    · rw [hd] at h; cases h
    · rw [hd] at h
      cases h
      rfl

theorem noDD_map_toLower {l : List Char} (h : noDoubleUnderscore l) :
    noDoubleUnderscore (l.map Char.toLower) := by
  induction l with
  | nil => trivial
  | cons a tl ih =>
    cases tl with
    | nil => trivial
    | cons b rest =>
      simp only [List.map_cons]
      refine ⟨?_, ?_⟩
      · intro hab
        exact h.1 ⟨toLower_underscore_iff.mp hab.1, toLower_underscore_iff.mp hab.2⟩
      · exact ih h.2

theorem sanitizeList_mem {l : List Char} {c : Char} (hc : c ∈ sanitizeList l) :
    allowedChar c ∧ ¬(65 ≤ c.toNat ∧ c.toNat ≤ 90) := by
  unfold sanitizeList stripUnderscores at hc
  rcases List.mem_map.mp hc with ⟨a, ha, rfl⟩
  exact ⟨allowedChar_toLower (mem_subInvalid (mem_collapse (mem_dropWhile (mem_dt ha)))),
         toLower_not_upper a⟩

theorem sanitizeList_noDD (l : List Char) : noDoubleUnderscore (sanitizeList l) := by
  unfold sanitizeList stripUnderscores
  exact noDD_map_toLower (noDD_dt (noDD_dropWhile (noDD_collapse (subInvalid l))))

theorem sanitizeList_head_ne (l : List Char) :
    ¬((sanitizeList l).head? = some '_') := by
  intro h
  unfold sanitizeList at h
  cases hs : stripUnderscores (collapseUnderscores (subInvalid l)) with
  | nil => rw [hs] at h; simp at h
  | cons x t =>
    rw [hs] at h
    simp only [List.map_cons, List.head?_cons] at h
    have hx : x = '_' := toLower_underscore_iff.mp (by simpa using h)
    unfold stripUnderscores at hs
    have hh := dt_head hs
    cases hw : (collapseUnderscores (subInvalid l)).dropWhile (· = '_') with
    | nil => rw [hw] at hh; simp at hh
    | cons y s =>
      rw [hw] at hh
      simp only [List.head?_cons, Option.some.injEq] at hh
      exact dropWhile_head_not _ y s hw (hh ▸ hx)

theorem sanitizeList_getLast_ne (l : List Char) :
    ¬((sanitizeList l).getLast? = some '_') := by
  intro h
  unfold sanitizeList at h
  rw [List.getLast?_map] at h
  cases hg : (stripUnderscores (collapseUnderscores (subInvalid l))).getLast? with
  | none => rw [hg] at h; simp at h
  | some y =>
    rw [hg] at h
    have hy : y = '_' := toLower_underscore_iff.mp (by simpa using h)
    unfold stripUnderscores at hg
    exact dt_getLast_ne _ (hy ▸ hg)

theorem map_toLower_eq_self {l : List Char}
    (h : ∀ c ∈ l, ¬(65 ≤ c.toNat ∧ c.toNat ≤ 90)) : l.map Char.toLower = l := by
  induction l with
  | nil => rfl
  | cons a tl ih =>
    simp only [List.map_cons]
    rw [toLower_eq_self (h a (by simp)), ih (fun c hc => h c (by simp [hc]))]

theorem strip_eq_self {l : List Char} (h1 : ¬(l.head? = some '_'))
    (h2 : ¬(l.getLast? = some '_')) : stripUnderscores l = l := by
  unfold stripUnderscores
  rw [dropWhile_eq_self h1, dt_eq_self h2]

theorem sanitizeList_eq_self {l : List Char}
    (hmem : ∀ c ∈ l, allowedChar c ∧ ¬(65 ≤ c.toNat ∧ c.toNat ≤ 90))
    (hdd : noDoubleUnderscore l)
    (hh : ¬(l.head? = some '_'))
    (hl : ¬(l.getLast? = some '_')) : sanitizeList l = l := by
  unfold sanitizeList
  rw [subInvalid_eq_self (fun c hc => (hmem c hc).1)]
  rw [collapse_eq_self hdd]
  rw [strip_eq_self hh hl]
  exact map_toLower_eq_self (fun c hc => (hmem c hc).2)

theorem sanitizeList_idem (l : List Char) :
    sanitizeList (sanitizeList l) = sanitizeList l :=
  sanitizeList_eq_self (fun _ hc => sanitizeList_mem hc) (sanitizeList_noDD l)
    (sanitizeList_head_ne l) (sanitizeList_getLast_ne l)

/-- C9: sanitization is idempotent — for every input string,
`sanitize(sanitize(x)) = sanitize(x)`. -/
theorem c9_sanitize_idempotent (s : String) :
    sanitize_name (sanitize_name s) = sanitize_name s := by
  unfold sanitize_name
  have hd : (String.mk (sanitizeList s.data)).data = sanitizeList s.data := rfl
  rw [hd, sanitizeList_idem]

/-! ## C2 and C10: round-trip machinery -/

theorem setKey_setKey (d : Doc) (k : String) (v w : PyVal) :
    setKey (setKey d k v) k w = setKey d k w := by
  induction d with
  | nil => simp [setKey]
  | cons p rest ih =>
    obtain ⟨k', v'⟩ := p
    by_cases h : k' = k
    · simp [setKey, h]
    · simp [setKey, h, ih]

theorem setKey_self_of_lookup {d : Doc} {k : String} {v : PyVal}
    (h : lookupV d k = some v) : setKey d k v = d := by
  induction d with
  | nil => simp [lookupV] at h
  | cons p rest ih =>
    obtain ⟨k', v'⟩ := p
    by_cases h' : k' = k
    · subst h'
      simp [lookupV] at h
      simp [setKey, h]
    · simp [lookupV, h'] at h
      simp [setKey, h', ih h]

theorem setKey_ne_nil (d : Doc) (k : String) (v : PyVal) :
    ¬(setKey d k v = []) := by
  cases d with
  | nil => simp [setKey]
  | cons p rest =>
    obtain ⟨k', v'⟩ := p
    by_cases h : k' = k <;> simp [setKey, h]

/-- Serialising a credential and deserialising it back yields the same
entity (it is the TOML trip, not this pair, that loses the `None`s). -/
theorem from_dict_to_dict (codec : DtCodec) (c : OAuthCredential) :
    OAuthCredential.from_dict codec (c.to_dict codec) = .ok c := by
  obtain ⟨name, provider, identifier, account_info, credentials,
          created_at, ea, lu, lr, md⟩ := c
  unfold OAuthCredential.from_dict OAuthCredential.to_dict
  cases ea <;> cases lu <;> cases lr <;>
    simp [convDtField, lookupV, setKey, optDtVal, codec.dec_enc,
          constructCredential, getStrField, getTableField, getDtField,
          getOptDtField, fieldNames, exceptBind_ok]

/-- A record written by `save` reloads unchanged when the credential's
optional timestamps are all present and its metadata is stable under the
TOML trip. -/
theorem credRecord_rt (ts : EncCollab) (codec : DtCodec) (c : OAuthCredential)
    (e u r : Nat)
    (hea : c.expires_at = some e) (hlu : c.last_used = some u)
    (hlr : c.last_refreshed = some r) (hmd : rtVal c.metadata = c.metadata) :
    rtTable (credRecord ⟨true, some ts⟩ codec c) =
      credRecord ⟨true, some ts⟩ codec c := by
  obtain ⟨name, provider, identifier, account_info, credentials,
          ca, ea', lu', lr', md⟩ := c
  dsimp only at hea hlu hlr hmd
  subst hea hlu hlr
  simp [credRecord, OAuthCredential.to_dict, setKey, credEnvelope, optDtVal,
        rtTable, rtVal, hmd]

/-- Round trip through the storage engine: after a successful `save` of a
credential whose optional timestamps are all present (and whose metadata
and decryption are stable), `get` under the credential's name returns the
identical entity. -/
theorem get_save_roundtrip (ts : EncCollab) (codec : DtCodec) (file : FileState)
    (c : OAuthCredential) (file' : FileState) (e u r : Nat)
    (hdec : ts.dec (ts.enc c.credentials) = some c.credentials)
    (hea : c.expires_at = some e) (hlu : c.last_used = some u)
    (hlr : c.last_refreshed = some r) (hmd : rtVal c.metadata = c.metadata)
    (hsave : OAuthStorage.save ⟨true, some ts⟩ codec file c = (file', true)) :
    OAuthStorage.get ⟨true, some ts⟩ codec file' c.name = some c := by
  obtain ⟨t, hsec, hshape⟩ := save_success_shape _ _ _ _ _ hsave
  subst hshape
  have hCR : credRecord ⟨true, some ts⟩ codec c =
      setKey (c.to_dict codec) "credentials" (credEnvelope ts c.credentials) := rfl
  have h1 : lookupV (loadDoc (setKey (loadForSave file) "oauth"
      (.table (setKey t c.name (.table (credRecord ⟨true, some ts⟩ codec c))))))
      "oauth" =
      some (.table (rtTable (setKey t c.name
        (.table (credRecord ⟨true, some ts⟩ codec c))))) := by
    unfold loadDoc
    rw [lookupV_rtTable, lookupV_setKey_self]
    rfl
  have h2 : lookupV (rtTable (setKey t c.name
      (.table (credRecord ⟨true, some ts⟩ codec c)))) c.name =
      some (.table (rtTable (credRecord ⟨true, some ts⟩ codec c))) := by
    rw [lookupV_rtTable, lookupV_setKey_self]
    rfl
  have h3 : rtTable (credRecord ⟨true, some ts⟩ codec c) =
      credRecord ⟨true, some ts⟩ codec c :=
    credRecord_rt ts codec c e u r hea hlu hlr hmd
  have h4 : lookupV (credRecord ⟨true, some ts⟩ codec c) "credentials" =
      some (credEnvelope ts c.credentials) := by
    rw [hCR]
    exact lookupV_setKey_self _ _ _
  have h5 : decryptCredData ⟨true, some ts⟩ (credRecord ⟨true, some ts⟩ codec c) =
      some (c.to_dict codec) := by
    unfold decryptCredData
    rw [h4]
    have htr : truthy (lookupV [("_encrypted", PyVal.bool true),
        ("_data", PyVal.str (ts.enc c.credentials))] "_encrypted") = true := rfl
    simp only [credEnvelope, htr, if_true]
    have hdata : lookupV [("_encrypted", PyVal.bool true),
        ("_data", PyVal.str (ts.enc c.credentials))] "_data" =
        some (PyVal.str (ts.enc c.credentials)) := rfl
    simp only [hdata, hdec]
    rw [hCR, setKey_setKey]
    rw [setKey_self_of_lookup (show lookupV (c.to_dict codec) "credentials" =
      some (.table c.credentials) from rfl)]
  unfold OAuthStorage.get
  simp only [h1, h2, h3, h5, from_dict_to_dict]

theorem optionMap_rtVal_idem (o : Option PyVal) :
    (o.map rtVal).map rtVal = o.map rtVal := by
  cases o with
  | none => rfl
  | some v => simp [rtVal_idem]

/-! ## C2 -/

/-- C2 counterexample: a credential with an absent optional field
(`expires_at = None` here) does not round trip: `save` succeeds, but the
`toml` package serialises the `None` as the string "None", whose timestamp
parse then raises, so `get` returns nothing at all. -/
theorem c2_counterexample :
    (OAuthStorage.save ⟨true, some (constEnc credNoExpiry.credentials)⟩ unaryCodec
      (.stored []) credNoExpiry).snd = true ∧
    OAuthStorage.get ⟨true, some (constEnc credNoExpiry.credentials)⟩ unaryCodec
      (OAuthStorage.save ⟨true, some (constEnc credNoExpiry.credentials)⟩ unaryCodec
        (.stored []) credNoExpiry).fst credNoExpiry.name = Option.none :=
  ⟨rfl, rfl⟩

/-- C2 amended: with encryption enabled, `save(cred)` followed by
`get(cred.name)` returns an entity equal to `cred` in every field —
provided the optional timestamp fields (`expires_at`, `last_used`,
`last_refreshed`) are all present, the metadata is stable under the TOML
trip, and the collaborator's decryption inverts its encryption; a
credential with an absent optional field is instead lost on read-back
(its `None` is stored as the text "None"). -/
theorem c2_amended (ts : EncCollab) (codec : DtCodec) (file : FileState)
    (c : OAuthCredential) (file' : FileState) (e u r : Nat)
    (hdec : ts.dec (ts.enc c.credentials) = some c.credentials)
    (hea : c.expires_at = some e) (hlu : c.last_used = some u)
    (hlr : c.last_refreshed = some r) (hmd : rtVal c.metadata = c.metadata)
    (hsave : OAuthStorage.save ⟨true, some ts⟩ codec file c = (file', true)) :
    OAuthStorage.get ⟨true, some ts⟩ codec file' c.name = some c :=
  get_save_roundtrip ts codec file c file' e u r hdec hea hlu hlr hmd hsave

/-- C2 amended, witness. -/
theorem c2_amended_witness :
    OAuthStorage.get ⟨true, some (constEnc credFull.credentials)⟩ unaryCodec
      (OAuthStorage.save ⟨true, some (constEnc credFull.credentials)⟩ unaryCodec
        (.stored []) credFull).fst credFull.name = some credFull :=
  c2_amended (constEnc credFull.credentials) unaryCodec (.stored []) credFull _
    20 30 40 rfl rfl rfl rfl rfl rfl

/-! ## C10 -/

/-- C10: on a stored credential written by `save` (optional timestamps
present, stable metadata, decryption inverting encryption),
`update_last_used` succeeds and changes only the `last_used` field of
that credential: reading it back yields the same entity with only
`last_used` replaced, every other entry of the `oauth` section is
unchanged, and every other top-level section of the document is
unchanged. -/
theorem c10_update_last_used_frame (ts : EncCollab) (codec : DtCodec)
    (file file1 : FileState) (c : OAuthCredential) (now : Nat) (e u r : Nat)
    (hdec : ts.dec (ts.enc c.credentials) = some c.credentials)
    (hea : c.expires_at = some e) (hlu : c.last_used = some u)
    (hlr : c.last_refreshed = some r) (hmd : rtVal c.metadata = c.metadata)
    (hsave : OAuthStorage.save ⟨true, some ts⟩ codec file c = (file1, true)) :
    ∃ file2,
      OAuthStorage.update_last_used ⟨true, some ts⟩ codec file1 c.name now =
        (file2, true) ∧
      OAuthStorage.get ⟨true, some ts⟩ codec file2 c.name =
        some { c with last_used := some now } ∧
      (∀ k, ¬(k = c.name) → oauthEntry file2 k = oauthEntry file1 k) ∧
      (∀ k, ¬(k = "oauth") → topEntry file2 k = topEntry file1 k) := by
  have hget : OAuthStorage.get ⟨true, some ts⟩ codec file1 c.name = some c :=
    get_save_roundtrip ts codec file c file1 e u r hdec hea hlu hlr hmd hsave
  obtain ⟨t, hsec, hshape⟩ := save_success_shape _ _ _ _ _ hsave
  subst hshape
  set CR := credRecord ⟨true, some ts⟩ codec c with hCR
  set T1 := setKey t c.name (.table CR) with hT1
  set D1 := setKey (loadForSave file) "oauth" (.table T1) with hD1
  set c' : OAuthCredential := { c with last_used := some now } with hc'
  set CR' := credRecord ⟨true, some ts⟩ codec c' with hCR'
  have hnameeq : c'.name = c.name := rfl
  have hne : ¬(D1 = []) := by rw [hD1]; exact setKey_ne_nil _ _ _
  have hload1 : loadForSave (.stored D1) = rtTable D1 := by
    unfold loadForSave
    dsimp only
    rw [if_neg hne]
    rfl
  have hsecl : lookupV (rtTable D1) "oauth" = some (.table (rtTable T1)) := by
    rw [hD1, lookupV_rtTable, lookupV_setKey_self]
    rfl
  have hsec2 : oauthSection (rtTable D1) = some (rtTable T1) := by
    unfold oauthSection
    rw [hsecl]
  set T2 := setKey (rtTable T1) c.name (.table CR') with hT2
  set D2 := setKey (rtTable D1) "oauth" (.table T2) with hD2
  have hsave2 : OAuthStorage.save ⟨true, some ts⟩ codec (.stored D1) c' =
      (.stored D2, true) := by
    unfold OAuthStorage.save
    rw [hload1, hsec2]
  have hupd : OAuthStorage.update_last_used ⟨true, some ts⟩ codec
      (.stored D1) c.name now = (.stored D2, true) := by
    unfold OAuthStorage.update_last_used
    rw [hget]
    exact hsave2
  refine ⟨.stored D2, hupd, ?_, ?_, ?_⟩
  · exact get_save_roundtrip ts codec (.stored D1) c' (.stored D2) e now r
      hdec hea rfl hlr hmd hsave2
  · intro k hk
    have h2a : lookupV (rtTable D2) "oauth" = some (.table (rtTable T2)) := by
      rw [hD2, lookupV_rtTable, lookupV_setKey_self]
      rfl
    unfold oauthEntry loadDoc
    dsimp only
    simp only [h2a, hsecl]
    rw [hT2, lookupV_rtTable, lookupV_setKey_ne _ _ _ _ (fun h => hk h.symm)]
    rw [lookupV_rtTable, optionMap_rtVal_idem]
  · intro k hk
    unfold topEntry loadDoc
    dsimp only
    rw [hD2, lookupV_rtTable,
        lookupV_setKey_ne _ _ _ _ (fun h => hk h.symm),
        lookupV_rtTable, optionMap_rtVal_idem]

/-- C10 witness. -/
theorem c10_witness :
    ∃ file2,
      OAuthStorage.update_last_used ⟨true, some (constEnc credFull.credentials)⟩
        unaryCodec
        (OAuthStorage.save ⟨true, some (constEnc credFull.credentials)⟩ unaryCodec
          (.stored []) credFull).fst credFull.name 50 = (file2, true) ∧
      OAuthStorage.get ⟨true, some (constEnc credFull.credentials)⟩ unaryCodec
        file2 credFull.name = some { credFull with last_used := some 50 } ∧
      (∀ k, ¬(k = credFull.name) →
        oauthEntry file2 k = oauthEntry
          (OAuthStorage.save ⟨true, some (constEnc credFull.credentials)⟩ unaryCodec
            (.stored []) credFull).fst k) ∧
      (∀ k, ¬(k = "oauth") →
        topEntry file2 k = topEntry
          (OAuthStorage.save ⟨true, some (constEnc credFull.credentials)⟩ unaryCodec
            (.stored []) credFull).fst k) :=
  c10_update_last_used_frame (constEnc credFull.credentials) unaryCodec
    (.stored []) _ credFull 50 20 30 40 rfl rfl rfl rfl rfl rfl

end Dango
